import Mathlib

/-!
Shallow embedding of the tradingbot repository's core:
the retry-with-backoff wrapper (`src/utils/retry_exception.py`),
the historical range partitioner and fetch pipeline (`src/fyersModel.py`),
the five-step login state machine (`src/fyersLogin.py`),
and the exception-swallowing logger (`src/utils/logger.py`).
-/

namespace Retry

/-- Result of running the wrapped function of `retry_exception.py`:
`ok` models a normal return, `opError` models `raise error` (re-raising the
operation's own exception object, identity preserved), and `genericError`
models the wrapper-synthesized
`raise Exception(f"Failed to execute {func.__name__} after {max_attempts} attempts.")`. -/
inductive Outcome (ε α : Type) where
  | ok : α → Outcome ε α
  | opError : ε → Outcome ε α
  | genericError : Outcome ε α
deriving DecidableEq, Repr

/-- Does the outcome re-raise an error of the wrapped operation itself? -/
def Outcome.isOpError {ε α : Type} : Outcome ε α → Bool
  | .opError _ => true
  | _ => false

/-- The `while remaining_attempts > 0` loop of `wrapped_function`
(`src/utils/retry_exception.py` lines 32-49).  `f i` is the result of the
i-th invocation of the wrapped operation (0-based); `calls` counts
invocations made so far; `remaining` is `remaining_attempts`.  Each loop
iteration calls `func` once; on exception it decrements
`remaining_attempts`, sleeps (irrelevant to the embedding) and, when the
budget is exhausted (`remaining_attempts <= 0`), re-raises the caught
error.  When the loop is never entered (`max_attempts = 0`) the generic
`Exception` after the loop is raised instead. -/
def wrapped_function {ε α : Type} (f : Nat → Except ε α) : Nat → Nat → Nat × Outcome ε α
  | calls, 0 => (calls, .genericError)
  | calls, remaining + 1 =>
    match f calls with
    | .ok a => (calls + 1, .ok a)
    | .error e =>
      if remaining = 0 then (calls + 1, .opError e)
      else wrapped_function f (calls + 1) remaining

/-- Running the retry wrapper: `(number of invocations of func, outcome)`. -/
def retryRun {ε α : Type} (f : Nat → Except ε α) (max_attempts : Nat) : Nat × Outcome ε α :=
  wrapped_function f 0 max_attempts

/-- Parameter validation of `retry(max_attempts, initial_delay, backoff_factor)`
(`src/utils/retry_exception.py` lines 20-28), performed before any function is
decorated, hence before the wrapped operation could ever be invoked. -/
structure RetryConfig where
  max_attempts : Nat
  initial_delay : ℚ
  backoff_factor : ℚ
deriving DecidableEq, Repr

/-- Construction of the `retry` decorator factory: the three `ValueError` guards,
in source order (backoff_factor first, then `int(max_attempts)` negativity,
then initial_delay).  Returns the validated configuration; no wrapped
operation is involved at this stage, mirroring that the Python `retry(...)`
call returns a decorator before any function is supplied. -/
def retry (max_attempts : Int) (initial_delay backoff_factor : ℚ) :
    Except String RetryConfig :=
  if backoff_factor ≤ 1 then .error "backoff_factor must be greater than 1"
  else if max_attempts < 0 then .error "max_attempts must be 0 or greater"
  else if initial_delay ≤ 0 then .error "initial_delay must be greater than 0"
  else .ok ⟨max_attempts.toNat, initial_delay, backoff_factor⟩

/-- Keyword parameters accepted by `def retry(max_attempts=3, initial_delay=3,
backoff_factor=2)` in `src/utils/retry_exception.py`. -/
def retryParamNames : List String := ["max_attempts", "initial_delay", "backoff_factor"]

/-- Python call semantics: passing a keyword argument whose name is not a
parameter of the callee raises `TypeError: got an unexpected keyword
argument` before the function body runs. -/
inductive PyCallError where
  | typeErrorUnexpectedKwarg : String → PyCallError
  | valueError : String → PyCallError
deriving DecidableEq, Repr

/-- Calling `retry` with an explicit keyword-argument list: Python first
matches keyword names against the parameter list (unknown name →
`TypeError`), then runs the body (the three `ValueError` guards). -/
def retryCallKwargs (kwargs : List String) (max_attempts : Int)
    (initial_delay backoff_factor : ℚ) : Except PyCallError RetryConfig :=
  match kwargs.find? (fun k => !(retryParamNames.contains k)) with
  | some k => .error (.typeErrorUnexpectedKwarg k)
  | none =>
    match retry max_attempts initial_delay backoff_factor with
    | .error msg => .error (.valueError msg)
    | .ok c => .ok c

/-- The decorator application at `src/fyersModel.py` line 353:
`@utils.retry(max_attempts=5, initial_delay=2, backoff_factor=2, do_print=False)`
on `FyersModel.history`, evaluated at class-definition time. -/
def history_retry_decorator : Except PyCallError RetryConfig :=
  retryCallKwargs ["max_attempts", "initial_delay", "backoff_factor", "do_print"] 5 2 2

end Retry

/-- Python runtime errors that the embedded code can raise. -/
inductive PyError where
  | typeError : PyError
  | keyError : String → PyError
  | attributeError : String → PyError
deriving DecidableEq, Repr

namespace Partitioner

/-- The span lookup at `src/fyersModel.py` line 426:
`{"D": 365}.get(data.get("resolution", 100))`.  `resolution` is the value
stored under the `"resolution"` key (`none` when the key is absent, in
which case the inner `get` yields the int `100`, which is likewise not a
key of `{"D": 365}`).  Every value other than the string `"D"` makes the
outer `.get` return Python `None`. -/
def allowed_day_difference (resolution : Option String) : Option Int :=
  match resolution with
  | some r => if r = "D" then some 365 else none
  | none => none

/-- The `while current_date <= range_to` loop of
`FyersModel.validate_date_range` (`src/fyersModel.py` lines 433-441),
with dates as proleptic-ordinal day numbers: each iteration emits the
window `(current, current + span - 1)` clipped to `range_to`, then
advances `current` by `span` days.  The Python loop terminates only for
positive spans, so positivity is carried as a hypothesis. -/
def partition_loop (range_to span : Int) (hspan : 0 < span) (current : Int) :
    List (Int × Int) :=
  if h : current ≤ range_to then
    (current,
      if current + span ≤ range_to then current + span - 1 else range_to) ::
      partition_loop range_to span hspan (current + span)
  else []
termination_by (range_to + 1 - current).toNat
decreasing_by
  simp_wf
  omega

/-- Model of `FyersModel.validate_date_range` (`src/fyersModel.py` lines 421-442):
looks up the allowed span for the request's resolution and runs the
windowing loop.  When the lookup yields Python `None` (every non-daily
resolution), the very next line `day_difference // allowed_day_difference`
raises `TypeError: unsupported operand type(s) for //`. -/
def validate_date_range (resolution : Option String) (range_from range_to : Int) :
    Except PyError (List (Int × Int)) :=
  match h : allowed_day_difference resolution with
  | none => .error .typeError
  | some span =>
    .ok (partition_loop range_to span
      (by
        cases resolution with
        | none => simp [allowed_day_difference] at h
        | some r =>
          simp only [allowed_day_difference] at h
          split at h
          · cases h; omega
          · cases h)
      range_from)

/-- Predicate `Chain lo hi ws`: the windows `ws` are ordered, contiguous,
non-overlapping, each non-empty (non-inverted), and exactly cover the
inclusive range `[lo, hi]` (an empty list covers an empty range). -/
def Chain : Int → Int → List (Int × Int) → Prop
  | lo, hi, [] => hi < lo
  | lo, hi, w :: ws => w.1 = lo ∧ w.1 ≤ w.2 ∧ w.2 ≤ hi ∧ Chain (w.2 + 1) hi ws

end Partitioner

namespace Login

/-- One pass of the `for step_func, step_name in steps` loop of
`FyersLogin.login` (`src/fyersLogin.py` lines 186-195): the five steps are
invoked strictly in order through `_handle_step`, and a step that raises
aborts the remaining steps of that pass immediately.  `stepRes k` is the
outcome of invoking step `k` (0-based, so step 1 of the protocol is index
0); the result pairs the list of step indices actually invoked with the
outcome of the pass. -/
def runSteps {ε δ : Type} (stepRes : Fin 5 → Except ε δ) :
    List (Fin 5) → List (Fin 5) × Except ε Unit
  | [] => ([], .ok ())
  | i :: rest =>
    match stepRes i with
    | .error e => ([i], .error e)
    | .ok _ =>
      let r := runSteps stepRes rest
      (i :: r.1, r.2)

/-- The five steps in source order: send login OTP, verify TOTP, verify
PIN, generate auth code, generate access token. -/
def allSteps : List (Fin 5) := [0, 1, 2, 3, 4]

/-- The `login` method under its decorator `@utils.retry(max_attempts=3, ...)`:
the retry loop of `Retry.wrapped_function`, instrumented to record, per
attempt, which steps were invoked.  `stepRes a k` is the outcome of step
`k` during attempt `a`; every attempt restarts the step list from the
head of `allSteps`. -/
def loginLoop {ε δ : Type} (stepRes : Nat → Fin 5 → Except ε δ) :
    Nat → Nat → List (List (Fin 5)) × Retry.Outcome ε Unit
  | _, 0 => ([], .genericError)
  | a, remaining + 1 =>
    let att := runSteps (stepRes a) allSteps
    match att.2 with
    | .ok _ => ([att.1], .ok ())
    | .error e =>
      if remaining = 0 then ([att.1], .opError e)
      else
        let rest := loginLoop stepRes (a + 1) remaining
        (att.1 :: rest.1, rest.2)

/-- The retried login: `max_attempts = 3` as in the decorator at
`src/fyersLogin.py` line 181. -/
def login {ε δ : Type} (stepRes : Nat → Fin 5 → Except ε δ) :
    List (List (Fin 5)) × Retry.Outcome ε Unit :=
  loginLoop stepRes 0 3

/-- The fields of `self.data` consumed by later steps: `request_key`
(steps 2-3), `Url` (step 5, represented by its parsed query parameters),
and `data.access_token` (step 4).  `none` models an absent key. -/
structure SessionData where
  request_key : Option String
  Url : Option (List (String × String))
  data_access_token : Option String

/-- A session in which no step has produced anything yet. -/
def emptySession : SessionData := ⟨none, none, none⟩

/-- The JSON body `_verifyTOTP` sends: `request_key` taken from
`self.data.get("request_key")` — Python `None` when absent — and the
freshly derived TOTP code. -/
structure TotpRequest where
  request_key : Option String
  otp : String

/-- Model of `FyersLogin._verifyTOTP` (`src/fyersLogin.py` lines 84-100): builds
its body with `.get` (no presence check) and issues the POST through the
rest client; the only way the step raises is the HTTP call itself
(`server`) failing. -/
def verifyTOTP_step {ρ : Type} (d : SessionData) (otp : String)
    (server : TotpRequest → Except PyError ρ) : Except PyError ρ :=
  server ⟨d.request_key, otp⟩

/-- The JSON body `_verifyPIN` sends: `request_key` via `.get`, the PIN as
`identifier`. -/
structure PinRequest where
  request_key : Option String
  identifier : String

/-- Model of `FyersLogin._verifyPIN` (`src/fyersLogin.py` lines 102-120): same
shape as `_verifyTOTP` — no presence check on `request_key`. -/
def verifyPIN_step {ρ : Type} (d : SessionData) (pin : String)
    (server : PinRequest → Except PyError ρ) : Except PyError ρ :=
  server ⟨d.request_key, pin⟩

/-- Model of `FyersLogin._generateAuthCode` (`src/fyersLogin.py` lines 122-147):
the authorization header subscripts `self.data["data"]["access_token"]`
directly, so an absent field raises `KeyError` before any request is
issued. -/
def generateAuthCode_step {ρ : Type} (d : SessionData)
    (server : String → Except PyError ρ) : Except PyError ρ :=
  match d.data_access_token with
  | none => .error (.keyError "data")
  | some tok => server tok

/-- The subscript `parse_qs(parsed.query)["auth_code"][0]` at `src/fyersLogin.py`
line 169: subscripting the parsed query raises `KeyError` when the
`auth_code` parameter is absent. -/
def parse_auth_code (query : List (String × String)) : Except PyError String :=
  match query.find? (fun p => p.1 = "auth_code") with
  | none => .error (.keyError "auth_code")
  | some p => .ok p.2

/-- Model of `FyersLogin._generate_access_token` (`src/fyersLogin.py` lines
149-174): `url = self.data.get("Url")`; the guard `if url:` skips the
whole body when the field is absent, so the step returns Python `None`
(`Except.ok none`) without raising; otherwise the auth code is extracted
and exchanged through the broker SDK (`sdk_generate_token`). -/
def generate_access_token_step {ρ : Type} (d : SessionData)
    (sdk_generate_token : String → Except PyError ρ) :
    Except PyError (Option ρ) :=
  match d.Url with
  | none => .ok none
  | some query =>
    match parse_auth_code query with
    | .error e => .error e
    | .ok code => (sdk_generate_token code).map some

/-- Model of `FyersLogin._handle_step` (`src/fyersLogin.py` lines 176-179): it stores
the step result and immediately calls `.get("message")` on it: a step
that returned Python `None` makes this raise `AttributeError`. -/
def handle_step_response {ρ : Type} (resp : Option ρ) : Except PyError ρ :=
  match resp with
  | none => .error (.attributeError "NoneType has no attribute get")
  | some r => .ok r

/-- Model of `ExceptionLogger.log_exception` (`src/utils/logger.py` lines 87-108):
the wrapper catches any exception from the wrapped call, logs it and —
when `reraise_on_exception` is false, the default used by `FyersLogin` —
swallows it and returns Python `None`. -/
def log_exception {ε α : Type} (reraise : Bool) (result : Except ε α) :
    Except ε (Option α) :=
  match result with
  | .ok a => .ok (some a)
  | .error e => if reraise then .error e else .ok none

/-- What a caller of the retry wrapper observes: either the operation's
own re-raised error or the wrapper-synthesized generic exception. -/
inductive Raised (ε : Type) where
  | op : ε → Raised ε
  | generic : Raised ε
deriving DecidableEq, Repr

/-- View a retry outcome as the exception the caller observes. -/
def outcomeExcept {ε α : Type} : Retry.Outcome ε α → Except (Raised ε) α
  | .ok a => .ok a
  | .opError e => .error (.op e)
  | .genericError => .error .generic

/-- The tail of `FyersLogin.__init__` (`src/fyersLogin.py` lines 45-61):
`self.access_token = None`, then `self.log_exception(self.login)()` runs
the retried login (3 attempts) under the exception logger with its
default `reraise_on_exception=False`.  `loginAttempt a` abstracts the
a-th whole-sequence login attempt, yielding the access token it stored on
success; the failure paths of an attempt (any of steps 1-4 raising, or
step 5 skipping its body) occur before the token assignment at line 172.
The result is `Except.ok st` when the constructor returns normally with
the instance field `access_token = st`; an `Except.error` would model an
exception propagating out of construction. -/
def fyersLogin_init {ε : Type} (loginAttempt : Nat → Except ε String) :
    Except (Raised ε) (Option String) :=
  match log_exception false (outcomeExcept (Retry.retryRun loginAttempt 3).2) with
  | .ok (some t) => .ok (some t)
  | .ok none => .ok none
  | .error e => .error e

/-- The state `FyersModel.__init__` (`src/fyersModel.py` lines 22-39)
builds: it stores the token as given and formats the `Authorization`
header `f"{self.client_id}:{self.access_token}"`, where Python renders an
absent token as the string `None`. -/
structure FyersModelState where
  client_id : String
  access_token : Option String
  header : String

/-- Python `f"{x}"` for an optional string: `None` renders as `"None"`. -/
def pyStr (s : Option String) : String := s.getD "None"

/-- Model of `FyersModel.__init__`. -/
def FyersModel_init (client_id : String) (token : Option String) : FyersModelState :=
  ⟨client_id, token, client_id ++ ":" ++ pyStr token⟩

/-- Model of `FyersLogin.__call__` (`src/fyersLogin.py` lines 200-204): builds a
`FyersModel` from the stored `client_id` and `access_token`. -/
def fyersLogin_call (client_id : String) (access_token : Option String) :
    FyersModelState :=
  FyersModel_init client_id access_token

end Login

namespace Pipeline

/-- The structurally-compared request value used as the memoization key:
`freezeargs` (`src/utils/freezeargs.py`) turns the mutable `data` dict
into a `frozendict`, whose equality and hash are structural over the
(symbol, resolution, range, flags) fields, making it usable as an
`lru_cache` key. -/
structure HistoryRequest where
  symbol : String
  resolution : String
  range_from : Int
  range_to : Int
  cont_flag : Bool
deriving DecidableEq, Repr

/-- The shared memoization cache of a `functools.lru_cache(maxsize=100)`
wrapper, plus a count of how many cache misses have executed the
underlying pipeline body (each miss issuing its network calls). Entries
are kept most-recently-used first. -/
structure CacheState (α : Type) where
  entries : List (HistoryRequest × α)
  netCalls : Nat

/-- One call through `functools.lru_cache(maxsize)`: a hit returns the
cached value and moves its entry to the most-recent position without
running the body; a miss runs the body (`compute`, counting its network
activity), inserts the result at the most-recent position and drops the
least-recently-used entry when the cache would exceed `maxsize`. -/
def lru_cached_call {α : Type} (maxsize : Nat) (compute : HistoryRequest → α)
    (st : CacheState α) (k : HistoryRequest) : α × CacheState α :=
  match st.entries.find? (fun p => p.1 = k) with
  | some p =>
    (p.2, ⟨(k, p.2) :: st.entries.eraseP (fun p => p.1 = k), st.netCalls⟩)
  | none =>
    let v := compute k
    (v, ⟨((k, v) :: st.entries).take maxsize, st.netCalls + 1⟩)

/-- Model of `FyersModel.get_history` under `@utils.freezeargs` and
`@functools.lru_cache(maxsize=100)` (`src/fyersModel.py` lines 462-477):
the pipeline body (partition, concurrent fetch, convert, concat) is
abstracted as `fetch`; the memoization layer is the LRU cache with
`maxsize = 100`. -/
def get_history {α : Type} (fetch : HistoryRequest → α) :
    CacheState α → HistoryRequest → α × CacheState α :=
  lru_cached_call 100 fetch

/-- The row filter `historical_data[~historical_data.index.duplicated(keep="first")]`
(`src/fyersModel.py` lines 499-501): drop every row whose date already
appeared earlier, keeping first occurrences in order. -/
def dedupFirst {α : Type} : List (Int × α) → List (Int × α)
  | [] => []
  | p :: rest => p :: dedupFirst (rest.filter (fun q => q.1 ≠ p.1))
termination_by l => l.length
decreasing_by
  simp_wf
  exact Nat.lt_succ_of_le (List.length_filter_le _ _)

/-- First row stored under date `d` (pandas label-based lookup on an index
whose first occurrence wins). -/
def lookupFirst {α : Type} (s : List (Int × α)) (d : Int) : Option α :=
  (s.find? (fun p => p.1 = d)).map (fun p => p.2)

/-- The index `pd.date_range(start=range_from, end=range_to, freq="D")`: every
calendar day of the inclusive range, in order (empty when the range is
inverted). -/
def rangeDays (lo hi : Int) : List Int :=
  (List.range (hi + 1 - lo).toNat).map (fun (n : Nat) => lo + (n : Int))

/-- The chain `.reindex(date_range).ffill().dropna()` (`src/fyersModel.py` line
511), fused: walk the day list in order; a day with its own row emits it
and becomes the fill value; a day with no row is forward-filled from the
carry, or dropped while no prior data exists (leading gap). -/
def reindex_ffill_dropna {α : Type} (f : Int → Option α) :
    Option α → List Int → List (Int × α)
  | _, [] => []
  | carry, d :: ds =>
    match f d with
    | some v => (d, v) :: reindex_ffill_dropna f (some v) ds
    | none =>
      match carry with
      | some v => (d, v) :: reindex_ffill_dropna f (some v) ds
      | none => reindex_ffill_dropna f none ds

/-- The normalization performed by `FyersModel.history_daily`
(`src/fyersModel.py` lines 479-517) on the concatenated series `s`:
deduplicate same-day rows keeping the first, reindex onto every calendar
day of `[range_from, range_to]`, forward-fill, and drop leading days with
no data.  Row contents (`α`) carry the open/high/low/close/volume/symbol
columns. -/
def history_daily_transform {α : Type} (range_from range_to : Int)
    (s : List (Int × α)) : List (Int × α) :=
  reindex_ffill_dropna (lookupFirst (dedupFirst s)) none
    (rangeDays range_from range_to)

end Pipeline

namespace Retry

/-- Invocation-count bound for the loop, generalized over the starting
counter. -/
theorem wrapped_function_count_le {ε α : Type} (f : Nat → Except ε α) :
    ∀ remaining calls, (wrapped_function f calls remaining).1 ≤ calls + remaining := by
  intro remaining
  induction remaining with
  | zero => intro calls; simp [wrapped_function]
  | succ r ih =>
    intro calls
    simp only [wrapped_function]
    cases f calls with
    | ok a => simp
    | error e =>
      by_cases hr : r = 0
      · simp [hr]
      · simp only [if_neg hr]
        have := ih (calls + 1)
        omega

/-- When every invocation fails, the loop re-raises the operation's own
last error, generalized over the starting counter. -/
theorem wrapped_function_all_fail {ε α : Type} (f : Nat → Except ε α) (es : Nat → ε)
    (hf : ∀ i, f i = Except.error (es i)) :
    ∀ remaining calls, 1 ≤ remaining →
      wrapped_function f calls remaining =
        (calls + remaining, Outcome.opError (es (calls + remaining - 1))) := by
  intro remaining
  induction remaining with
  | zero => intro calls h; omega
  | succ r ih =>
    intro calls _
    simp only [wrapped_function, hf calls]
    by_cases hr : r = 0
    · subst hr; simp
    · have := ih (calls + 1) (by omega)
      rw [if_neg hr, this]
      have h1 : calls + 1 + r = calls + (r + 1) := by omega
      rw [h1]

end Retry

namespace Partitioner

/-- Every window of a chain lies within the covered range and is
non-inverted. -/
theorem Chain.bounds {hi : Int} :
    ∀ {lo : Int} {ws : List (Int × Int)}, Chain lo hi ws →
      ∀ w ∈ ws, lo ≤ w.1 ∧ w.1 ≤ w.2 ∧ w.2 ≤ hi := by
  intro lo ws
  induction ws generalizing lo with
  | nil => intro _ w hw; cases hw
  | cons u us ih =>
    intro hc w hw
    obtain ⟨h1, h2, h3, h4⟩ := hc
    rcases List.mem_cons.mp hw with hw | hw
    · subst hw; exact ⟨le_of_eq h1.symm, h2, h3⟩
    · have := ih h4 w hw
      exact ⟨by omega, this.2.1, this.2.2⟩

/-- Chained windows are pairwise disjoint (each ends strictly before the
next begins), hence non-overlapping and ordered. -/
theorem Chain.pairwise {hi : Int} :
    ∀ {lo : Int} {ws : List (Int × Int)}, Chain lo hi ws →
      ws.Pairwise (fun w w' => w.2 < w'.1) := by
  intro lo ws
  induction ws generalizing lo with
  | nil => intro _; exact List.Pairwise.nil
  | cons u us ih =>
    intro hc
    obtain ⟨h1, h2, h3, h4⟩ := hc
    refine List.Pairwise.cons ?_ (ih h4)
    intro w hw
    have := Chain.bounds h4 w hw
    omega

/-- The union of chained windows is exactly the covered inclusive range. -/
theorem Chain.mem_iff {hi : Int} :
    ∀ {lo : Int} {ws : List (Int × Int)}, Chain lo hi ws →
      ∀ d : Int, (lo ≤ d ∧ d ≤ hi) ↔ ∃ w ∈ ws, w.1 ≤ d ∧ d ≤ w.2 := by
  intro lo ws
  induction ws generalizing lo with
  | nil =>
    intro hc d
    have hlt : hi < lo := hc
    constructor
    · intro hd; exact absurd hd (by omega)
    · rintro ⟨w, hw, -⟩; cases hw
  | cons u us ih =>
    intro hc d
    obtain ⟨h1, h2, h3, h4⟩ := hc
    constructor
    · intro hd
      by_cases hdu : d ≤ u.2
      · exact ⟨u, List.mem_cons_self u us, by omega, hdu⟩
      · obtain ⟨w, hw, hwd⟩ := ((ih h4 d).mp (by omega))
        exact ⟨w, List.mem_cons_of_mem u hw, hwd⟩
    · rintro ⟨w, hw, hwd⟩
      rcases List.mem_cons.mp hw with hw | hw
      · subst hw; omega
      · have hb := Chain.bounds h4 w hw
        omega

/-- The windowing loop produces a chain covering `[current, range_to]`. -/
theorem partition_loop_chain (range_to span : Int) (hspan : 0 < span) :
    ∀ current, Chain current range_to (partition_loop range_to span hspan current) := by
  intro current
  generalize hm : (range_to + 1 - current).toNat = m
  induction m using Nat.strong_induction_on generalizing current with
  | _ m ih =>
    rw [partition_loop]
    by_cases h : current ≤ range_to
    · rw [dif_pos h]
      by_cases hnext : current + span ≤ range_to
      · rw [if_pos hnext]
        refine ⟨rfl, by omega, by omega, ?_⟩
        have hlt : (range_to + 1 - (current + span)).toNat < m := by omega
        have := ih _ hlt (current + span) rfl
        simpa using this
      · rw [if_neg hnext]
        refine ⟨rfl, by omega, by omega, ?_⟩
        rw [partition_loop, dif_neg (by omega)]
        show (range_to : Int) < range_to + 1
        omega
    · rw [dif_neg h]
      show (range_to : Int) < current
      omega

/-- A span shorter than `maxSpan` yields exactly the one window
`[range_from, range_to]`. -/
theorem partition_loop_single (range_from range_to span : Int) (hspan : 0 < span)
    (h1 : range_from ≤ range_to) (h2 : range_to - range_from < span) :
    partition_loop range_to span hspan range_from = [(range_from, range_to)] := by
  rw [partition_loop, dif_pos h1, if_neg (by omega), partition_loop,
    dif_neg (by omega)]

end Partitioner

namespace Login

/-- The a-th recorded attempt trace is exactly the invocation list of the
a-th whole-sequence pass: every retry re-runs `runSteps` on the full
`allSteps` list. -/
theorem loginLoop_trace_getD {ε δ : Type} (stepRes : Nat → Fin 5 → Except ε δ) :
    ∀ remaining a0 i, i < (loginLoop stepRes a0 remaining).1.length →
      (loginLoop stepRes a0 remaining).1.getD i [] =
        (runSteps (stepRes (a0 + i)) allSteps).1 := by
  intro remaining
  induction remaining with
  | zero => intro a0 i hi; simp [loginLoop] at hi
  | succ r ih =>
    intro a0 i hi
    simp only [loginLoop] at hi ⊢
    cases hatt : (runSteps (stepRes a0) allSteps).2 with
    | ok u =>
      simp only [hatt] at hi ⊢
      have hi0 : i = 0 := by simpa using hi
      subst hi0
      simp
    | error e =>
      simp only [hatt] at hi ⊢
      by_cases hr : r = 0
      · simp only [hr, if_pos rfl] at hi ⊢
        have hi0 : i = 0 := by simpa using hi
        subst hi0
        simp
      · simp only [if_neg hr] at hi ⊢
        cases i with
        | zero => simp
        | succ j =>
          simp only [List.length_cons] at hi
          have hj : j < (loginLoop stepRes (a0 + 1) r).1.length := by omega
          have := ih (a0 + 1) j hj
          simp only [List.getD_cons_succ]
          rw [this]
          have harith : a0 + 1 + j = a0 + (j + 1) := by omega
          rw [harith]

/-- Within one pass, the invoked steps are exactly the prefix up to and
including the first failing step `k`, provided every earlier step
succeeds. -/
theorem runSteps_first_error {ε δ : Type} (stepRes : Fin 5 → Except ε δ)
    (k : Fin 5) (e : ε) (hk : stepRes k = Except.error e)
    (hprev : ∀ j, j < k → ∃ d, stepRes j = Except.ok d) :
    (runSteps stepRes allSteps).1 = allSteps.takeWhile (fun j => j ≤ k) ∧
    (runSteps stepRes allSteps).2 = Except.error e := by
  fin_cases k
  · replace hk : stepRes 0 = Except.error e := hk
    refine ⟨?_, ?_⟩ <;> simp only [runSteps, allSteps, hk] <;> decide
  · replace hk : stepRes 1 = Except.error e := hk
    obtain ⟨d0, h0⟩ := hprev 0 (by decide)
    refine ⟨?_, ?_⟩ <;> simp only [runSteps, allSteps, h0, hk] <;> decide
  · replace hk : stepRes 2 = Except.error e := hk
    obtain ⟨d0, h0⟩ := hprev 0 (by decide)
    obtain ⟨d1, h1⟩ := hprev 1 (by decide)
    refine ⟨?_, ?_⟩ <;> simp only [runSteps, allSteps, h0, h1, hk] <;> decide
  · replace hk : stepRes 3 = Except.error e := hk
    obtain ⟨d0, h0⟩ := hprev 0 (by decide)
    obtain ⟨d1, h1⟩ := hprev 1 (by decide)
    obtain ⟨d2, h2⟩ := hprev 2 (by decide)
    refine ⟨?_, ?_⟩ <;> simp only [runSteps, allSteps, h0, h1, h2, hk] <;> decide
  · replace hk : stepRes 4 = Except.error e := hk
    obtain ⟨d0, h0⟩ := hprev 0 (by decide)
    obtain ⟨d1, h1⟩ := hprev 1 (by decide)
    obtain ⟨d2, h2⟩ := hprev 2 (by decide)
    obtain ⟨d3, h3⟩ := hprev 3 (by decide)
    refine ⟨?_, ?_⟩ <;> simp only [runSteps, allSteps, h0, h1, h2, h3, hk] <;> decide

end Login

namespace Pipeline

/-- Label lookup on a cons cell. -/
theorem lookupFirst_cons {α : Type} (p : Int × α) (l : List (Int × α)) (d : Int) :
    lookupFirst (p :: l) d = if p.1 = d then some p.2 else lookupFirst l d := by
  by_cases h : p.1 = d <;> simp [lookupFirst, List.find?_cons, h]

/-- Filtering away rows of a different date does not change a lookup. -/
theorem lookupFirst_filter_ne {α : Type} {k d : Int} (hne : d ≠ k) :
    ∀ l : List (Int × α),
      lookupFirst (l.filter (fun q => q.1 ≠ k)) d = lookupFirst l d := by
  intro l
  induction l with
  | nil => rfl
  | cons r rest ih =>
    by_cases hr : r.1 = k
    · have hrd : ¬(r.1 = d) := by rw [hr]; exact fun he => hne he.symm
      rw [List.filter_cons, if_neg (by simp [hr]), ih, lookupFirst_cons,
        if_neg hrd]
    · rw [List.filter_cons, if_pos (by simp [hr]), lookupFirst_cons,
        lookupFirst_cons, ih]

/-- Deduplication keeping the first occurrence preserves first-occurrence
lookups. -/
theorem lookupFirst_dedupFirst {α : Type} :
    ∀ (s : List (Int × α)) (d : Int),
      lookupFirst (dedupFirst s) d = lookupFirst s d := by
  intro s
  generalize hn : s.length = n
  induction n using Nat.strong_induction_on generalizing s with
  | _ n ih =>
    cases s with
    | nil => intro d; rw [dedupFirst]
    | cons p rest =>
      intro d
      rw [dedupFirst]
      rw [lookupFirst_cons, lookupFirst_cons]
      by_cases hpd : p.1 = d
      · rw [if_pos hpd, if_pos hpd]
      · rw [if_neg hpd, if_neg hpd]
        have hlen : (rest.filter (fun q => q.1 ≠ p.1)).length < n := by
          have := List.length_filter_le (fun q => decide (q.1 ≠ p.1)) rest
          simp only [List.length_cons] at hn
          omega
        rw [ih _ hlen _ rfl d]
        exact lookupFirst_filter_ne (fun he => hpd he.symm) rest

/-- Every emitted row is dated by one of the walked days. -/
theorem reindex_mem_days {α : Type} (f : Int → Option α) :
    ∀ (ds : List Int) (carry : Option α) (p : Int × α),
      p ∈ reindex_ffill_dropna f carry ds → p.1 ∈ ds := by
  intro ds
  induction ds with
  | nil => intro carry p hp; simp [reindex_ffill_dropna] at hp
  | cons d ds ih =>
    intro carry p hp
    simp only [reindex_ffill_dropna] at hp
    cases hf : f d with
    | some v =>
      rw [hf] at hp
      rcases List.mem_cons.mp hp with h | h
      · rw [h]; exact List.mem_cons_self d ds
      · exact List.mem_cons_of_mem _ (ih (some v) p h)
    | none =>
      rw [hf] at hp
      cases carry with
      | some v =>
        rcases List.mem_cons.mp hp with h | h
        · rw [h]; exact List.mem_cons_self d ds
        · exact List.mem_cons_of_mem _ (ih (some v) p h)
      | none => exact List.mem_cons_of_mem _ (ih none p hp)

/-- The emitted dates form a subsequence of the walked days. -/
theorem reindex_fst_sublist {α : Type} (f : Int → Option α) :
    ∀ (ds : List Int) (carry : Option α),
      ((reindex_ffill_dropna f carry ds).map Prod.fst).Sublist ds := by
  intro ds
  induction ds with
  | nil => intro carry; simp [reindex_ffill_dropna]
  | cons d ds ih =>
    intro carry
    simp only [reindex_ffill_dropna]
    cases f d with
    | some v => simpa using List.Sublist.cons₂ d (ih (some v))
    | none =>
      cases carry with
      | some v => simpa using List.Sublist.cons₂ d (ih (some v))
      | none => exact List.Sublist.cons d (ih none)

/-- The walk depends on the lookup function only at the walked days. -/
theorem reindex_congr {α : Type} (f g : Int → Option α) :
    ∀ (ds : List Int), (∀ d ∈ ds, f d = g d) → ∀ carry,
      reindex_ffill_dropna f carry ds = reindex_ffill_dropna g carry ds := by
  intro ds
  induction ds with
  | nil => intro _ carry; rfl
  | cons d ds ih =>
    intro hfg carry
    have hd : f d = g d := hfg d (List.mem_cons_self d ds)
    have hrest : ∀ x ∈ ds, f x = g x := fun x hx => hfg x (List.mem_cons_of_mem d hx)
    simp only [reindex_ffill_dropna, hd]
    cases g d with
    | some v => simp [ih hrest]
    | none =>
      cases carry with
      | some v => simp [ih hrest]
      | none => simp [ih hrest]

/-- Re-walking an already forward-filled segment (the carry is populated)
reproduces it exactly, whatever carry the second walk starts with. -/
theorem reindex_idem_full {α : Type} :
    ∀ ds : List Int, ds.Nodup → ∀ (f : Int → Option α) (v : α) (c : Option α),
      reindex_ffill_dropna
        (lookupFirst (reindex_ffill_dropna f (some v) ds)) c ds =
      reindex_ffill_dropna f (some v) ds := by
  intro ds
  induction ds with
  | nil => intro _ f v c; rfl
  | cons d ds ih =>
    intro hnd f v c
    obtain ⟨hd, hnd'⟩ := List.nodup_cons.mp hnd
    cases hf : f d with
    | some w =>
      have hhit : lookupFirst ((d, w) :: reindex_ffill_dropna f (some w) ds) d
          = some w := by rw [lookupFirst_cons, if_pos rfl]
      simp only [reindex_ffill_dropna, hf, hhit]
      refine congrArg _ ?_
      rw [reindex_congr _ (lookupFirst (reindex_ffill_dropna f (some w) ds)) ds
        (fun x hx => by
          rw [lookupFirst_cons, if_neg (fun he => absurd hx (by rw [← he]; exact hd))]) (some w)]
      exact ih hnd' f w (some w)
    | none =>
      have hhit : lookupFirst ((d, v) :: reindex_ffill_dropna f (some v) ds) d
          = some v := by rw [lookupFirst_cons, if_pos rfl]
      simp only [reindex_ffill_dropna, hf, hhit]
      refine congrArg _ ?_
      rw [reindex_congr _ (lookupFirst (reindex_ffill_dropna f (some v) ds)) ds
        (fun x hx => by
          rw [lookupFirst_cons, if_neg (fun he => absurd hx (by rw [← he]; exact hd))]) (some v)]
      exact ih hnd' f v (some v)

/-- Re-walking a full walk (leading gap included) reproduces it exactly. -/
theorem reindex_idem {α : Type} :
    ∀ ds : List Int, ds.Nodup → ∀ f : Int → Option α,
      reindex_ffill_dropna
        (lookupFirst (reindex_ffill_dropna f none ds)) none ds =
      reindex_ffill_dropna f none ds := by
  intro ds
  induction ds with
  | nil => intro _ f; rfl
  | cons d ds ih =>
    intro hnd f
    obtain ⟨hd, hnd'⟩ := List.nodup_cons.mp hnd
    cases hf : f d with
    | some w =>
      have hhit : lookupFirst ((d, w) :: reindex_ffill_dropna f (some w) ds) d
          = some w := by rw [lookupFirst_cons, if_pos rfl]
      simp only [reindex_ffill_dropna, hf, hhit]
      refine congrArg _ ?_
      rw [reindex_congr _ (lookupFirst (reindex_ffill_dropna f (some w) ds)) ds
        (fun x hx => by
          rw [lookupFirst_cons, if_neg (fun he => absurd hx (by rw [← he]; exact hd))]) (some w)]
      exact reindex_idem_full ds hnd' f w (some w)
    | none =>
      simp only [reindex_ffill_dropna, hf]
      have hgd : lookupFirst (reindex_ffill_dropna f none ds) d = none := by
        cases hfind : (reindex_ffill_dropna f none ds).find?
            (fun p => p.1 = d) with
        | none => simp [lookupFirst, hfind]
        | some p =>
          have hp := List.mem_of_find?_eq_some hfind
          have hpd := List.find?_some hfind
          simp only [decide_eq_true_eq] at hpd
          have hmem : p.1 ∈ ds := reindex_mem_days f ds none p hp
          rw [hpd] at hmem
          exact absurd hmem hd
      rw [hgd]
      exact ih hnd' f

/-- The calendar-day walk visits each day once. -/
theorem rangeDays_nodup (lo hi : Int) : (rangeDays lo hi).Nodup := by
  unfold rangeDays
  refine List.Nodup.map ?_ (List.nodup_range _)
  intro a b hab
  have h : lo + (a : Int) = lo + (b : Int) := hab
  omega

end Pipeline

/-- C1 counterexample: with `max_attempts = 0` and an always-failing
operation, the `while remaining_attempts > 0` loop is never entered, so
the operation is invoked zero times and the error raised to the caller is
the wrapper-synthesized generic `Exception` after the loop, not the
operation's own error — refuting the claim's last-error clause at
`maxAttempts = 0`. -/
theorem retry_c1_counterexample :
    (Retry.retryRun (fun _ => (Except.error 37 : Except Nat Nat)) 0).1 = 0 ∧
    (Retry.retryRun (fun _ => (Except.error 37 : Except Nat Nat)) 0).2 =
      Retry.Outcome.genericError ∧
    (Retry.retryRun (fun _ => (Except.error 37 : Except Nat Nat)) 0).2.isOpError = false := by
  refine ⟨rfl, rfl, rfl⟩

/-- C1 (amended): for every configuration with `maxAttempts ≥ 1` the retry
wrapper invokes the wrapped operation at most `maxAttempts + 1` times, and
if every invocation fails, the error finally raised is the operation's own
last error (the one from the final invocation), with identity preserved
(`Outcome.opError` carries the very error value), not a
wrapper-synthesized error.  (At `maxAttempts = 0` the operation is never
invoked and a wrapper-synthesized generic error is raised instead.) -/
theorem retry_c1_amended {ε α : Type} (f : Nat → Except ε α) (es : Nat → ε)
    (max_attempts : Nat) (hmax : 1 ≤ max_attempts) :
    (Retry.retryRun f max_attempts).1 ≤ max_attempts + 1 ∧
    ((∀ i, f i = Except.error (es i)) →
      (Retry.retryRun f max_attempts).2 =
        Retry.Outcome.opError (es (max_attempts - 1))) := by
  constructor
  · have := Retry.wrapped_function_count_le f max_attempts 0
    simpa [Retry.retryRun] using this.trans (by omega)
  · intro hf
    have := Retry.wrapped_function_all_fail f es hf max_attempts 0 hmax
    simp [Retry.retryRun, this]

/-- Witness for C1 (amended) at `maxAttempts = 1` with an operation that
always raises error `5`: one invocation, and error `5` is re-raised. -/
theorem retry_c1_amended_witness :
    (Retry.retryRun (fun _ => (Except.error 5 : Except Nat Nat)) 1).1 ≤ 2 ∧
    (Retry.retryRun (fun _ => (Except.error 5 : Except Nat Nat)) 1).2 =
      Retry.Outcome.opError 5 := by
  have h := retry_c1_amended (fun _ => (Except.error 5 : Except Nat Nat))
    (fun _ => 5) 1 (by decide)
  exact ⟨h.1, h.2 (fun _ => rfl)⟩

/-- C8: constructing the retry wrapper succeeds exactly when
`backoff_factor > 1`, `max_attempts ≥ 0` and `initial_delay > 0`;
otherwise `retry(...)` raises a `ValueError` at construction time.  The
construction stage involves no wrapped operation at all (mirroring the
Python decorator factory, which validates before any function is
decorated), so the operation is never invoked either way. -/
theorem retry_c8_construction (m : Int) (d b : ℚ) :
    (∃ c, Retry.retry m d b = Except.ok c) ↔ (1 < b ∧ 0 ≤ m ∧ 0 < d) := by
  unfold Retry.retry
  split_ifs with h1 h2 h3 <;>
    simp_all [not_le, not_lt]

/-- C4: the decorator application
`@utils.retry(max_attempts=5, initial_delay=2, backoff_factor=2, do_print=False)`
on `FyersModel.history` raises `TypeError: retry() got an unexpected
keyword argument` at class-definition time, because `retry` accepts no
`do_print` parameter; the same call without the stray keyword would have
succeeded with the very parameters the spec names (5 attempts, 2s delay,
backoff ×2). -/
theorem history_retry_decorator_typeerror :
    Retry.history_retry_decorator =
      Except.error (Retry.PyCallError.typeErrorUnexpectedKwarg "do_print") ∧
    Retry.retryCallKwargs ["max_attempts", "initial_delay", "backoff_factor"] 5 2 2 =
      Except.ok ⟨5, 2, 2⟩ := by
  refine ⟨rfl, rfl⟩

/-- C2: for every inclusive date range `[range_from, range_to]` with
`range_from ≤ range_to` and every `span > 0`, the windowing loop of
`validate_date_range` emits an ordered list of windows that is a chain —
contiguous, non-overlapping, each window non-empty and non-inverted, whose
union is exactly `[range_from, range_to]` — and exactly one window (namely
the whole range) is emitted when `range_to - range_from < span`. -/
theorem partitioner_c2 (range_from range_to span : Int) (hspan : 0 < span)
    (hle : range_from ≤ range_to) :
    Partitioner.Chain range_from range_to
      (Partitioner.partition_loop range_to span hspan range_from) ∧
    (Partitioner.partition_loop range_to span hspan range_from).Pairwise
      (fun w w' => w.2 < w'.1) ∧
    (∀ w ∈ Partitioner.partition_loop range_to span hspan range_from, w.1 ≤ w.2) ∧
    (∀ d : Int, (range_from ≤ d ∧ d ≤ range_to) ↔
      ∃ w ∈ Partitioner.partition_loop range_to span hspan range_from,
        w.1 ≤ d ∧ d ≤ w.2) ∧
    (range_to - range_from < span →
      Partitioner.partition_loop range_to span hspan range_from =
        [(range_from, range_to)]) := by
  have hchain := Partitioner.partition_loop_chain range_to span hspan range_from
  refine ⟨hchain, Partitioner.Chain.pairwise hchain,
    fun w hw => (Partitioner.Chain.bounds hchain w hw).2.1,
    Partitioner.Chain.mem_iff hchain, fun h2 =>
    Partitioner.partition_loop_single range_from range_to span hspan hle h2⟩

/-- Witness for C2: range `[0, 800]` with `span = 365` (the daily limit);
the theorem's hypotheses hold at these concrete values. -/
theorem partitioner_c2_witness :
    ((0 : Int) < 365 ∧ (0 : Int) ≤ 800) ∧
    Partitioner.Chain 0 800
      (Partitioner.partition_loop 800 365 (by decide) 0) := by
  have h := partitioner_c2 0 800 365 (by decide) (by decide)
  exact ⟨⟨by decide, by decide⟩, h.1⟩

/-- C3 (code bug): the span lookup
`{"D": 365}.get(data.get("resolution", 100))` misplaces the 100-day
default — it is the fallback of the *inner* dict lookup, not the outer one
— so for every documented intraday resolution (e.g. `"5"`), and likewise
for a missing resolution, the lookup returns Python `None` and the
subsequent floor division raises `TypeError`, contradicting the code's own
comment `365 days for daily timeframe and 100 days for other timeframe`.
Only the daily resolution `"D"` partitions successfully. -/
theorem partitioner_c3_intraday_typeerror :
    Partitioner.validate_date_range (some "5") 0 500 =
      Except.error PyError.typeError ∧
    Partitioner.allowed_day_difference (some "5") = none ∧
    Partitioner.allowed_day_difference (some "60") = none ∧
    Partitioner.allowed_day_difference none = none ∧
    Partitioner.allowed_day_difference (some "D") = some 365 ∧
    (∃ ws, Partitioner.validate_date_range (some "D") 0 500 = Except.ok ws) := by
  exact ⟨rfl, rfl, rfl, rfl, rfl, ⟨_, rfl⟩⟩

/-- C5: in any single attempt of the five-step login sequence, if step `k`
raises while every earlier step succeeded, the attempt invokes exactly
steps 1 through `k+1` (0-based: the prefix of `allSteps` up to and
including `k`): steps after `k` are never invoked in that attempt, and the
attempt — every attempt, including each retry — begins by invoking step 1
again, never resuming from the failed step. -/
theorem login_c5_abort_and_restart {ε δ : Type} (stepRes : Nat → Fin 5 → Except ε δ)
    (a : Nat) (k : Fin 5) (e : ε)
    (ha : a < (Login.login stepRes).1.length)
    (hk : stepRes a k = Except.error e)
    (hprev : ∀ j, j < k → ∃ d, stepRes a j = Except.ok d) :
    (Login.login stepRes).1.getD a [] =
      Login.allSteps.takeWhile (fun j => j ≤ k) ∧
    (∀ j : Fin 5, k < j → j ∉ (Login.login stepRes).1.getD a []) ∧
    ((Login.login stepRes).1.getD a []).head? = some 0 := by
  have htr := Login.loginLoop_trace_getD stepRes 3 0 a
    (by simpa [Login.login] using ha)
  have hrs := Login.runSteps_first_error (stepRes a) k e hk hprev
  have hget : (Login.login stepRes).1.getD a [] =
      Login.allSteps.takeWhile (fun j => j ≤ k) := by
    simpa [Login.login, hrs.1] using htr
  refine ⟨hget, ?_, ?_⟩
  · intro j hj hmem
    rw [hget] at hmem
    have := List.mem_takeWhile_imp hmem
    simp only [decide_eq_true_eq] at this
    exact absurd hj (not_lt_of_le this)
  · rw [hget]
    have h0 : (0 : Fin 5) ≤ k := Fin.zero_le k
    simp [Login.allSteps, List.takeWhile_cons, h0]

/-- Witness for C5: every attempt succeeds at step 1 and fails at step 2
(TOTP verification); attempt index 1 — the first retry — invoked exactly
steps 1 and 2 and began again at step 1. -/
theorem login_c5_witness :
    (Login.login (fun _ j =>
        if j = 0 then Except.ok 0 else Except.error (9 : Nat))).1.getD 1 [] =
      Login.allSteps.takeWhile (fun j => j ≤ 1) ∧
    (3 : Fin 5) ∉ (Login.login (fun _ j =>
        if j = 0 then Except.ok 0 else Except.error (9 : Nat))).1.getD 1 [] ∧
    ((Login.login (fun _ j =>
        if j = 0 then Except.ok 0 else Except.error (9 : Nat))).1.getD 1 []).head? =
      some 0 := by
  have h := login_c5_abort_and_restart
    (fun _ j => if j = 0 then Except.ok 0 else Except.error (9 : Nat))
    1 1 9 (by decide) rfl (by
      intro j hj
      refine ⟨0, ?_⟩
      fin_cases j
      · rfl
      all_goals exact absurd hj (by decide))
  exact ⟨h.1, h.2.1 3 (by decide), h.2.2⟩

/-- C9 counterexample: step 2 (`_verifyTOTP`) with `requestKey` missing
from the session does not fail: it builds its request with
`self.data.get("request_key")` — a null `request_key` — issues it, and
completes normally when the server accepts, refuting the claim that every
step with a missing prerequisite raises a protocol-order error. -/
theorem login_c9_counterexample :
    Login.verifyTOTP_step Login.emptySession "123456"
      (fun _ => (Except.ok 0 : Except PyError Nat)) = Except.ok 0 ∧
    Login.emptySession.request_key = none := by
  exact ⟨rfl, rfl⟩

/-- C9 (amended): only steps 4 and 5 effectively fail on a missing
prerequisite — step 4 (`_generateAuthCode`) raises `KeyError` by
subscripting `self.data["data"]["access_token"]`, and step 5
(`_generate_access_token`) returns Python `None` (completing normally
itself), upon which `_handle_step` raises `AttributeError` calling
`.get("message")` on it.  Steps 2 and 3 perform no check: with
`requestKey` missing they issue their verification request with a null
`request_key` and fail only if the server rejects it.  No step raises a
typed protocol-order error. -/
theorem login_c9_amended {ρ : Type} (d : Login.SessionData)
    (server4 : String → Except PyError ρ) (sdk : String → Except PyError ρ)
    (server2 : Login.TotpRequest → Except PyError ρ)
    (server3 : Login.PinRequest → Except PyError ρ)
    (totp pin : String)
    (h4 : d.data_access_token = none) (h5 : d.Url = none)
    (h23 : d.request_key = none) :
    Login.generateAuthCode_step d server4 =
      Except.error (PyError.keyError "data") ∧
    Login.generate_access_token_step d sdk = Except.ok none ∧
    Login.handle_step_response (ρ := ρ) none =
      Except.error (PyError.attributeError "NoneType has no attribute get") ∧
    Login.verifyTOTP_step d totp server2 = server2 ⟨none, totp⟩ ∧
    Login.verifyPIN_step d pin server3 = server3 ⟨none, pin⟩ := by
  refine ⟨?_, ?_, rfl, ?_, ?_⟩
  · simp [Login.generateAuthCode_step, h4]
  · simp [Login.generate_access_token_step, h5]
  · simp [Login.verifyTOTP_step, h23]
  · simp [Login.verifyPIN_step, h23]

/-- Witness for C9 (amended): the empty session with accepting servers. -/
theorem login_c9_amended_witness :
    Login.generateAuthCode_step Login.emptySession
      (fun _ => (Except.ok 1 : Except PyError Nat)) =
      Except.error (PyError.keyError "data") ∧
    Login.generate_access_token_step Login.emptySession
      (fun _ => (Except.ok 1 : Except PyError Nat)) = Except.ok none ∧
    Login.verifyTOTP_step Login.emptySession "111111"
      (fun _ => (Except.ok 1 : Except PyError Nat)) =
      (fun _ => (Except.ok 1 : Except PyError Nat))
        (⟨none, "111111"⟩ : Login.TotpRequest) := by
  have h := login_c9_amended (ρ := Nat) Login.emptySession
    (fun _ => Except.ok 1) (fun _ => Except.ok 1)
    (fun _ => Except.ok 1) (fun _ => Except.ok 1)
    "111111" "0000" rfl rfl rfl
  exact ⟨h.1, h.2.1, h.2.2.2.1⟩

/-- C10: constructing a `FyersLogin` never propagates a login failure:
when every one of the 3 retried attempts fails, the retry wrapper
re-raises the last attempt's own error, the exception logger (default
`reraise_on_exception=False`) swallows it, construction returns normally
with `access_token = None`, and calling the instance yields a client
whose token is `None`. -/
theorem login_c10_swallow {ε : Type} (loginAttempt : Nat → Except ε String)
    (es : Nat → ε) (hf : ∀ a, loginAttempt a = Except.error (es a))
    (client_id : String) :
    (Retry.retryRun loginAttempt 3).2 = Retry.Outcome.opError (es 2) ∧
    (∀ e : ε, Login.log_exception false (Except.error e) =
      (Except.ok none : Except ε (Option String))) ∧
    Login.fyersLogin_init loginAttempt = Except.ok none ∧
    (Login.fyersLogin_call client_id none).access_token = none := by
  have h := Retry.wrapped_function_all_fail loginAttempt es hf 3 0 (by omega)
  have h2 : (Retry.retryRun loginAttempt 3).2 = Retry.Outcome.opError (es 2) := by
    simp [Retry.retryRun, h]
  refine ⟨h2, fun e => rfl, ?_, rfl⟩
  simp [Login.fyersLogin_init, h2, Login.log_exception, Login.outcomeExcept]

/-- Witness for C10: every attempt raises error `7`; construction
completes with a `None` token. -/
theorem login_c10_swallow_witness :
    Login.fyersLogin_init (fun _ => (Except.error 7 : Except Nat String)) =
      Except.ok none ∧
    (Login.fyersLogin_call "ABC-100" none).access_token = none := by
  have h := login_c10_swallow (fun _ => (Except.error 7 : Except Nat String))
    (fun _ => 7) (fun _ => rfl) "ABC-100"
  exact ⟨h.2.2.1, h.2.2.2⟩

/-- C6: the daily-rollup normalization — deduplicate same-day rows keeping
the first, reindex onto every calendar day of `[range_from, range_to]`,
forward-fill missing days from the last known row, drop leading days with
no prior data — is idempotent: applying it twice to any series yields
exactly the series obtained by applying it once (in particular an
already-normalized series is left unchanged), and the normalized series
has no duplicate dates. -/
theorem pipeline_c6_rollup_idempotent {α : Type} (range_from range_to : Int)
    (s : List (Int × α)) :
    Pipeline.history_daily_transform range_from range_to
      (Pipeline.history_daily_transform range_from range_to s) =
    Pipeline.history_daily_transform range_from range_to s ∧
    ((Pipeline.history_daily_transform range_from range_to s).map
      Prod.fst).Nodup := by
  constructor
  · unfold Pipeline.history_daily_transform
    rw [Pipeline.reindex_congr _
      (Pipeline.lookupFirst
        (Pipeline.reindex_ffill_dropna
          (Pipeline.lookupFirst (Pipeline.dedupFirst s)) none
          (Pipeline.rangeDays range_from range_to)))
      _ (fun d _ => Pipeline.lookupFirst_dedupFirst _ d) none]
    exact Pipeline.reindex_idem _
      (Pipeline.rangeDays_nodup range_from range_to) _
  · exact ((Pipeline.reindex_fst_sublist _ _ none).nodup
      (Pipeline.rangeDays_nodup range_from range_to))

/-- C7: with the memoization cache initially empty, two calls with
structurally identical `HistoryRequest` values run the pipeline body (and
its network calls) only once — the second call is a cache hit returning
the same series — while a third call whose symbol or range differs misses
the cache and issues new network calls; moreover a call never grows the
cache beyond the 100-entry bound of `lru_cache(maxsize=100)`, and a miss
on a full cache evicts exactly the least-recently-used entry. -/
theorem pipeline_c7_memoization {α : Type} (fetch : Pipeline.HistoryRequest → α)
    (k k2 : Pipeline.HistoryRequest)
    (hne : k2.symbol ≠ k.symbol ∨ k2.range_from ≠ k.range_from ∨
      k2.range_to ≠ k.range_to) :
    (Pipeline.get_history fetch ⟨[], 0⟩ k).2.netCalls = 1 ∧
    (Pipeline.get_history fetch (Pipeline.get_history fetch ⟨[], 0⟩ k).2 k).1 =
      (Pipeline.get_history fetch ⟨[], 0⟩ k).1 ∧
    (Pipeline.get_history fetch
      (Pipeline.get_history fetch ⟨[], 0⟩ k).2 k).2.netCalls = 1 ∧
    (Pipeline.get_history fetch
      (Pipeline.get_history fetch
        (Pipeline.get_history fetch ⟨[], 0⟩ k).2 k).2 k2).2.netCalls = 2 ∧
    (∀ st : Pipeline.CacheState α, st.entries.length ≤ 100 →
      (Pipeline.get_history fetch st k).2.entries.length ≤ 100) ∧
    (∀ st : Pipeline.CacheState α, st.entries.length = 100 →
      st.entries.find? (fun p => p.1 = k) = none →
      (Pipeline.get_history fetch st k).2.entries =
        (k, fetch k) :: st.entries.take 99) := by
  have hkk2 : ¬(k = k2) := by
    rcases hne with h | h | h <;> exact fun he => h (by rw [he])
  have h1 : Pipeline.get_history fetch ⟨[], 0⟩ k =
      (fetch k, ⟨[(k, fetch k)], 1⟩) := by
    simp [Pipeline.get_history, Pipeline.lru_cached_call]
  have h2 : Pipeline.get_history fetch ⟨[(k, fetch k)], 1⟩ k =
      (fetch k, ⟨[(k, fetch k)], 1⟩) := by
    simp [Pipeline.get_history, Pipeline.lru_cached_call, List.find?_cons,
      List.eraseP_cons]
  have h3 : Pipeline.get_history fetch ⟨[(k, fetch k)], 1⟩ k2 =
      (fetch k2, ⟨[(k2, fetch k2), (k, fetch k)], 2⟩) := by
    simp [Pipeline.get_history, Pipeline.lru_cached_call, List.find?_cons, hkk2]
  refine ⟨by rw [h1], by rw [h1, h2], by rw [h1, h2], by rw [h1, h2, h3],
    ?_, ?_⟩
  · intro st hst
    unfold Pipeline.get_history Pipeline.lru_cached_call
    cases hfind : st.entries.find? (fun p => p.1 = k) with
    | some p =>
      have hmem := List.mem_of_find?_eq_some hfind
      have hlen := List.length_eraseP_of_mem hmem (List.find?_some hfind)
      have hpos : 1 ≤ st.entries.length :=
        List.length_pos.mpr (List.ne_nil_of_mem hmem)
      simp only [hfind, List.length_cons]
      omega
    | none =>
      simp only [hfind, List.length_take]
      omega
  · intro st hlen hfind
    unfold Pipeline.get_history Pipeline.lru_cached_call
    simp only [hfind]
    rfl

/-- Witness for C7: two structurally identical daily requests for one
symbol issue the pipeline body once; a third request for another symbol
issues it again. -/
theorem pipeline_c7_memoization_witness :
    (Pipeline.get_history (fun _ => (0 : Nat)) ⟨[], 0⟩
      ⟨"NSE:SBIN-EQ", "D", 0, 800, true⟩).2.netCalls = 1 ∧
    (Pipeline.get_history (fun _ => (0 : Nat))
      (Pipeline.get_history (fun _ => (0 : Nat)) ⟨[], 0⟩
        ⟨"NSE:SBIN-EQ", "D", 0, 800, true⟩).2
      ⟨"NSE:SBIN-EQ", "D", 0, 800, true⟩).2.netCalls = 1 ∧
    (Pipeline.get_history (fun _ => (0 : Nat))
      (Pipeline.get_history (fun _ => (0 : Nat))
        (Pipeline.get_history (fun _ => (0 : Nat)) ⟨[], 0⟩
          ⟨"NSE:SBIN-EQ", "D", 0, 800, true⟩).2
        ⟨"NSE:SBIN-EQ", "D", 0, 800, true⟩).2
      ⟨"NSE:TCS-EQ", "D", 0, 800, true⟩).2.netCalls = 2 := by
  have h := pipeline_c7_memoization (fun _ => (0 : Nat))
    ⟨"NSE:SBIN-EQ", "D", 0, 800, true⟩ ⟨"NSE:TCS-EQ", "D", 0, 800, true⟩
    (Or.inl (by decide))
  exact ⟨h.1, h.2.2.1, h.2.2.2.1⟩
